import Mathlib

/-!
Shallow embedding of the `gsd` snapshot daemon (Rust) for spec verification.

The embedding follows the source files:
  * `src/git/mod.rs` — git adapter: command results, ownership check,
    ignore/exclude merging, status parsing, detached-head check.
  * `src/snapshot/mod.rs` — snapshot service: commit-message formatting,
    single-flight commit path, the commit decision protocol, and the
    config-reload reconciliation.

File contents are modelled as `List Char` (named `Str` below); Rust byte-wise
string comparison agrees with code-point order on UTF-8 data, so `Char`
lexicographic order is a faithful model of `String::cmp`.  External effects
(git subprocesses, the filesystem) are supplied as explicit oracle values.
-/

deriving instance DecidableEq for Except

namespace Gsd

/-- File/str content, a list of characters (Rust `String` / `&str`). -/
abbrev Str := List Char

/-- Splits a character list at every `'\n'`, keeping all (possibly empty)
fields; this is the field structure underlying Rust's `str::lines()`. -/
def splitLines : Str → List Str
  | [] => [[]]
  | c :: cs =>
    if c = '\n' then [] :: splitLines cs
    else
      match splitLines cs with
      | l :: ls => (c :: l) :: ls
      | [] => [[c]]

/-- Drop leading whitespace (one half of Rust `str::trim`). -/
def dropWS (s : Str) : Str := s.dropWhile Char.isWhitespace

/-- Rust `str::trim` (whitespace stripped from both ends; the sources only
ever trim ASCII text, where `Char.isWhitespace` matches Rust's notion). -/
def trimStr (s : Str) : Str := (dropWS (dropWS s).reverse).reverse

/-! ## Git adapter data model (`src/git/mod.rs`) -/
/-- `GSD_DIR` — directory name used for the tool's own git metadata. -/
def GSD_DIR : Str := ".gsd".data

/-- `GSD_IGNORE_FILE` — optional per-directory ignore-override file name. -/
def GSD_IGNORE_FILE : Str := ".gsdignore".data

/-- Outcome of one git subprocess invocation (`GitCommandResult`). -/
structure GitCommandResult where
  stdout : Str
  stderr : Str
  exit_code : Int
  truncated : Bool

deriving DecidableEq

/-- `GitError` from `src/git/mod.rs`. -/
inductive GitError where
  | CommandFailed (message : Str)
  | NotAvailable
  | IoError
  | DetachedHead (path : Str)

deriving DecidableEq

/-- `RepoOwnership` — two-valued classification of a target directory. -/
inductive RepoOwnership where
  | NoRepo
  | Ours

deriving DecidableEq

/-- `check_repo_ownership`: probes for the `.gsd` directory.  The filesystem
probe (`fs::try_exists`) is supplied as an oracle; `Except.error` models a
probe failure, which the code collapses with `unwrap_or(false)`. -/
def check_repo_ownership (probeResult : Except Unit Bool) :
    Except GitError RepoOwnership :=
  let found := match probeResult with
    | .ok b => b
    | .error _ => false
  if found then .ok .Ours else .ok .NoRepo

/-- Trimmed lines kept by `ensure_gitignore` as already-known patterns
(non-empty after trimming; comments are NOT filtered there). -/
def knownGitignoreLines (existing : Str) : List Str :=
  ((splitLines existing).map trimStr).filter (fun l => !l.isEmpty)

/-- The `suffix` separator computed before appending to an ignore file:
empty when the existing content is empty or already newline-terminated. -/
def padOf (existing : Str) : Str :=
  if existing = [] ∨ existing.getLast? = some '\n' then [] else ['\n']

/-- The `to_add` list computed by `ensure_gitignore`: the given patterns
not already known in the existing `.gitignore` content. -/
def gitignoreToAdd (gitignore : Option Str) (patterns : List Str) :
    List Str :=
  patterns.filter
    (fun p => decide (p ∉ knownGitignoreLines (gitignore.getD [])))

/-- `ensure_gitignore`: merge `patterns` into the `.gitignore` content.
Returns the resulting file content (`none` = file absent) and whether a
write happened (the function's `Ok(bool)` value). -/
def ensure_gitignore (gitignore : Option Str) (patterns : List Str) :
    Option Str × Bool :=
  if patterns = [] then (gitignore, false)
  else
    let existing := gitignore.getD []
    let to_add := gitignoreToAdd gitignore patterns
    if to_add = [] then (gitignore, false)
    else
      (some (existing ++ padOf existing ++ List.intercalate ['\n'] to_add
        ++ ['\n']), true)

/-- A line retained as a pattern by `setup_gsd_excludes`: non-empty after
trimming and not a `#` comment. -/
def isPatternLine (l : Str) : Bool :=
  match l with
  | [] => false
  | c :: _ => decide (c ≠ '#')

/-- Trimmed, non-empty, non-comment lines of a file (the `known` set in
`setup_gsd_excludes`). -/
def patternLines (content : Str) : List Str :=
  ((splitLines content).map trimStr).filter isPatternLine

/-- The combined `.gitignore`/`.gsdignore` pattern text built by
`setup_gsd_excludes` (`format!("{}\n{}", gitignore, gsdignore)`). -/
def combinedPatterns (gitignore gsdignore : Option Str) : Str :=
  gitignore.getD [] ++ '\n' :: gsdignore.getD []

/-- The `to_add` list computed by `setup_gsd_excludes`. -/
def excludesToAdd (gitignore gsdignore exclude : Option Str) : List Str :=
  ((splitLines (combinedPatterns gitignore gsdignore)).map trimStr).filter
    (fun p => isPatternLine p && decide (p ∉ patternLines (exclude.getD [])))

/-- `setup_gsd_excludes`: merge `.gitignore` plus `.gsdignore` patterns into
`.gsd/info/exclude`, append-only and de-duplicated against patterns already
recorded there.  Returns the resulting exclude-file content. -/
def setup_gsd_excludes (gitignore gsdignore exclude : Option Str) :
    Option Str :=
  let patterns := combinedPatterns gitignore gsdignore
  if trimStr patterns = [] then exclude
  else
    let existing := exclude.getD []
    let to_add := excludesToAdd gitignore gsdignore exclude
    if to_add = [] then exclude
    else
      some (existing ++ padOf existing ++ "# From ".data ++ GSD_IGNORE_FILE
        ++ '\n' :: (List.intercalate ['\n'] to_add ++ ['\n']))

/-- Splits a character list at every NUL, keeping all fields (the record
separator of `git status --porcelain -z`). -/
def splitNul : Str → List Str
  | [] => [[]]
  | c :: cs =>
    if c = Char.ofNat 0 then [] :: splitNul cs
    else
      match splitNul cs with
      | l :: ls => (c :: l) :: ls
      | [] => [[c]]

/-- The record-processing loop of `list_changed_files`: consume the entry
list, handling rename/copy records (status code starting `R`/`C`) by
retaining the following record's content instead.  Rust indexes bytes; the
status prefix is ASCII so character indexing is equivalent. -/
def parseStatusEntries : List Str → List Str
  | [] => []
  | entry :: rest =>
    if entry.length < 4 then parseStatusEntries rest
    else
      let status := entry.take 2
      let path_value := entry.drop 3
      if status.head? = some 'R' ∨ status.head? = some 'C' then
        match rest with
        | next :: rest2 => next :: parseStatusEntries rest2
        | [] => path_value :: parseStatusEntries ([] : List Str)
      else
        path_value :: parseStatusEntries rest

/-- Adjacent-duplicate removal (`Vec::dedup`). -/
def dedupAdj : List Str → List Str
  | [] => []
  | [a] => [a]
  | a :: b :: rest =>
    if a = b then dedupAdj (b :: rest) else a :: dedupAdj (b :: rest)

/-- `files.sort()` — Rust's byte-lexicographic sort; on UTF-8 data byte
order coincides with `Char` code-point lexicographic order. -/
def sortPaths (files : List Str) : List Str :=
  List.insertionSort (· ≤ ·) files

/-- The pure core of `list_changed_files` applied to the status stdout:
split on NUL, drop empty records, run the record loop, sort, dedup. -/
def listChangedFilesPure (stdout : Str) : List Str :=
  let entries := (splitNul stdout).filter (fun s => !s.isEmpty)
  dedupAdj (sortPaths (parseStatusEntries entries))

/-- `list_changed_files` with the status command's result as oracle. -/
def list_changed_files (statusResult : GitCommandResult) :
    Except GitError (List Str) :=
  if statusResult.exit_code ≠ 0 then
    .error (.CommandFailed (trimStr statusResult.stderr))
  else
    .ok (listChangedFilesPure statusResult.stdout)

/-- `has_changes`: non-emptiness of the changed-file list. -/
def has_changes (statusResult : GitCommandResult) : Except GitError Bool :=
  match list_changed_files statusResult with
  | .error e => .error e
  | .ok files => .ok (decide (files ≠ []))

/-- `is_detached_head`: `rev-parse --abbrev-ref HEAD` printed `HEAD`. -/
def is_detached_head (revParseResult : GitCommandResult) :
    Except GitError Bool :=
  if revParseResult.exit_code ≠ 0 then
    .error (.CommandFailed (trimStr revParseResult.stderr))
  else
    .ok (decide (trimStr revParseResult.stdout = "HEAD".data))

/-! ## Filesystem model for repository initialization -/
/-- The per-target filesystem facts `ensure_repo_initialized` touches:
presence of the `.gsd` metadata directory and the three ignore-related
file contents (`none` = file absent). -/
structure Fs where
  gsdExists : Bool
  gitignore : Option Str
  gsdignore : Option Str
  exclude : Option Str

deriving DecidableEq

/-- The git subprocesses `ensure_repo_initialized` may spawn, as oracle
keys (identity configuration commands have their exit codes ignored by the
source, so they carry no oracle). -/
inductive InitCmd where
  | init
  | addAllInit
  | commitInit

deriving DecidableEq

/-- `ensure_repo_initialized`: if the `.gsd` directory is already present
(`RepoOwnership::Ours`) only reconcile configuration and merge ignore
patterns; otherwise `git init` (which creates `.gsd`), merge ignore
patterns with the forced `".gsd/"` entry prepended, merge `.gsdignore`
into the exclude file, and make the initial commit. -/
def ensure_repo_initialized (fs : Fs) (cmds : InitCmd → GitCommandResult)
    (ignore_patterns : List Str) : Except GitError Fs :=
  if fs.gsdExists then
    let fs1 := { fs with gitignore := (ensure_gitignore fs.gitignore ignore_patterns).1 }
    let fs2 := { fs1 with
      exclude := setup_gsd_excludes fs1.gitignore fs1.gsdignore fs1.exclude }
    .ok fs2
  else
    if (cmds .init).exit_code ≠ 0 then
      .error (.CommandFailed (trimStr (cmds .init).stderr))
    else
      let fs0 := { fs with gsdExists := true }
      let all_patterns := (GSD_DIR ++ "/".data) :: ignore_patterns
      let fs1 := { fs0 with
        gitignore := (ensure_gitignore fs0.gitignore all_patterns).1 }
      let fs2 := { fs1 with
        exclude := setup_gsd_excludes fs1.gitignore fs1.gsdignore fs1.exclude }
      if (cmds .addAllInit).exit_code ≠ 0 then
        .error (.CommandFailed (trimStr (cmds .addAllInit).stderr))
      else if (cmds .commitInit).exit_code ≠ 0 then
        .error (.CommandFailed (trimStr (cmds .commitInit).stderr))
      else
        .ok fs2

/-! ## Snapshot service (`src/snapshot/mod.rs`) -/
/-- `format_commit_message`: list up to `max_files` paths comma-joined,
with a ` +<n> more` tail when truncated. -/
def format_commit_message (files : List Str) (max_files : Nat) : Str :=
  let visible := files.take max_files
  let remaining := files.length - max_files
  if remaining > 0 then
    List.intercalate ", ".data visible ++ " +".data
      ++ (Nat.repr remaining).data ++ " more".data
  else
    List.intercalate ", ".data visible

/-- Mutating git actions performed during a commit cycle, recorded as a
trace: `git add -A` and `git commit -m <message>`. -/
inductive GitAction where
  | addAll
  | commit (message : Str)

deriving DecidableEq

/-- `commit_all`: stage everything, then commit with `message`; each step
surfaces a `CommandFailed` on a non-zero exit.  Also yields the trace of
git actions that were invoked. -/
def commit_all (message : Str) (addResult commitResult : GitCommandResult) :
    Except GitError Unit × List GitAction :=
  if addResult.exit_code ≠ 0 then
    (.error (.CommandFailed (trimStr addResult.stderr)), [.addAll])
  else if commitResult.exit_code ≠ 0 then
    (.error (.CommandFailed (trimStr commitResult.stderr)),
      [.addAll, .commit message])
  else
    (.ok (), [.addAll, .commit message])

/-- Oracle for the subprocess results one `do_commit` cycle consumes, in
invocation order: the `rev-parse` for the detached-HEAD check, the status
call inside `has_changes`, the status call inside `list_changed_files`,
then `add -A` and `commit`. -/
structure CycleOracle where
  revParse : GitCommandResult
  statusForHasChanges : GitCommandResult
  statusForList : GitCommandResult
  addAll : GitCommandResult
  commit : GitCommandResult

deriving DecidableEq

/-- `do_commit`: detached-HEAD check, change detection, enumeration, then
stage-and-commit with the auto-generated message.  Returns the cycle
outcome and the trace of mutating git actions. -/
def do_commit (path : Str) (o : CycleOracle) :
    Except GitError Unit × List GitAction :=
  match is_detached_head o.revParse with
  | .error e => (.error e, [])
  | .ok true => (.error (.DetachedHead path), [])
  | .ok false =>
    match has_changes o.statusForHasChanges with
    | .error e => (.error e, [])
    | .ok false => (.ok (), [])
    | .ok true =>
      match list_changed_files o.statusForList with
      | .error e => (.error e, [])
      | .ok changed_files =>
        commit_all (format_commit_message changed_files 10) o.addAll o.commit

/-- `TargetConfig` (from `src/config/mod.rs`; the path is kept as its
string key form). -/
structure TargetConfig where
  path : Str
  interval_seconds : Nat
  ignore_patterns : List Str
  enabled : Bool

deriving DecidableEq

/-- `TargetState`: per-target live scheduling state.  Task handles are
identified by the `Nat` drawn from the spawn counter. -/
structure TargetState where
  config : TargetConfig
  in_flight : Bool
  task_handle : Option Nat

deriving DecidableEq

/-- The registry map `HashMap<String, TargetState>`, as an association
list with unique keys. -/
abbrev Registry := List (Str × TargetState)

def lookupTarget (m : Registry) (k : Str) : Option TargetState :=
  (m.find? (fun p => decide (p.1 = k))).map (·.2)

/-- Mutation through `get_mut`: update the state stored at an existing
key, leaving the map unchanged when the key is absent. -/
def setTarget (m : Registry) (k : Str) (st : TargetState) : Registry :=
  m.map (fun p => if p.1 = k then (k, st) else p)

/-- `HashMap::insert`: replace the value at the key, or add the entry. -/
def insertTarget (m : Registry) (k : Str) (st : TargetState) : Registry :=
  if (lookupTarget m k).isSome then setTarget m k st else m ++ [(k, st)]

/-- `HashMap::remove` (the task handle held there is aborted). -/
def removeTarget (m : Registry) (k : Str) : Registry :=
  m.filter (fun p => decide (p.1 ≠ k))

/-- First critical section of `commit_target_static`: under the write
lock, skip if absent or already in flight, otherwise set `in_flight`.
Returns the registry as left by the critical section and whether the
commit work may begin. -/
def tryBeginCommit (m : Registry) (target_id : Str) : Registry × Bool :=
  match lookupTarget m target_id with
  | none => (m, false)
  | some st =>
    if st.in_flight then (m, false)
    else (setTarget m target_id { st with in_flight := true }, true)

/-- Second critical section of `commit_target_static`: clear `in_flight`
(no-op when the key is gone). -/
def endCommit (m : Registry) (target_id : Str) : Registry :=
  match lookupTarget m target_id with
  | none => m
  | some st => setTarget m target_id { st with in_flight := false }

/-- `commit_target_static`: single-flight guard around one `do_commit`
invocation.  `commitResult` is the outcome of that invocation (consumed
only when the guard admits it); the returned flag records whether
`do_commit` was invoked at all. -/
def commit_target_static (m : Registry) (target_id : Str)
    (commitResult : Except GitError Unit) : Registry × Bool :=
  let step := tryBeginCommit m target_id
  if step.2 then
    let _ := commitResult
    (endCommit step.1 target_id, true)
  else
    (step.1, false)

/-! ## Configuration reload / reconciliation (`reload_config`) -/
/-- `GitConfig` globals consumed by the snapshot service. -/
structure GitConfig where
  author_name : Str
  author_email : Str
  default_ignore_patterns : List Str

deriving DecidableEq

/-- `Config`: the fields of the loaded configuration the service reads. -/
structure Config where
  git : GitConfig
  targets : List TargetConfig

deriving DecidableEq

/-- `SnapshotError` (from `src/snapshot/mod.rs`). -/
inductive SnapshotError where
  | GitNotAvailable
  | Git (e : GitError)
  | TargetInitFailed (id : Str) (message : Str)

deriving DecidableEq

/-- The live service state `reload_config` reconciles: the loaded config,
the registry, and the counter supplying fresh task-handle identifiers. -/
structure ServiceState where
  config : Config
  registry : Registry
  nextHandle : Nat

deriving DecidableEq

/-- `remove_target`: drop the key from the registry (aborting its task). -/
def svcRemoveTarget (s : ServiceState) (path_key : Str) : ServiceState :=
  { s with registry := removeTarget s.registry path_key }

/-- `add_target`: run the initialization protocol (success supplied by the
`initOk` oracle, keyed by target path); only on success spawn a fresh task
handle and register the target with a clean state. -/
def svcAddTarget (initOk : Str → Bool) (s : ServiceState)
    (target : TargetConfig) : ServiceState :=
  if initOk target.path then
    { s with
      registry := insertTarget s.registry target.path
        { config := target, in_flight := false,
          task_handle := some s.nextHandle },
      nextHandle := s.nextHandle + 1 }
  else s

/-- `needs_restart`: the target is registered and its interval changed. -/
def needsRestart (s : ServiceState) (target : TargetConfig) : Bool :=
  match lookupTarget s.registry target.path with
  | some st => decide (st.config.interval_seconds ≠ target.interval_seconds)
  | none => false

/-- One iteration of the add-or-update loop of `reload_config` for one
configured target: skip disabled targets; remove-then-re-add when the
registered interval differs; add when absent (`contains_key` check). -/
def reloadStep (initOk : Str → Bool) (s : ServiceState)
    (target : TargetConfig) : ServiceState :=
  if !target.enabled then s
  else
    let s1 := if needsRestart s target then svcRemoveTarget s target.path
      else s
    if (lookupTarget s1.registry target.path).isSome then s1
    else svcAddTarget initOk s1 target

/-- The enabled-target key set of a configuration. -/
def enabledPaths (c : Config) : List Str :=
  (c.targets.filter (·.enabled)).map (·.path)

/-- `reload_config`: `loadResult` is the outcome of
`Config::load_from_sources` (`none` models the service having no config
path, in which case the code returns at once).  On a load failure the
previous live configuration stays in effect.  Otherwise: remove targets
gone from the new enabled set, then run the add-or-update loop, then
install the new configuration.  The call itself always returns `Ok`. -/
def reload_config (s : ServiceState) (loadResult : Option (Except Unit Config))
    (initOk : Str → Bool) : ServiceState × Except SnapshotError Unit :=
  match loadResult with
  | none => (s, .ok ())
  | some (.error _) => (s, .ok ())
  | some (.ok new_config) =>
    let new_target_paths := enabledPaths new_config
    let current_paths := s.registry.map (·.1)
    let s1 := current_paths.foldl
      (fun acc p => if p ∈ new_target_paths then acc else svcRemoveTarget acc p) s
    let s2 := new_config.targets.foldl (reloadStep initOk) s1
    ({ s2 with config := new_config }, .ok ())

/-- The complete lines of the existing content, as they appear when a
newline-terminated block is appended after the `padOf` separator. -/
def linesBeforeAppend (e : Str) : List Str :=
  if e = [] then []
  else if e.getLast? = some '\n' then (splitLines e).dropLast
  else splitLines e

/-- The exclude-file content written by `setup_gsd_excludes` when a write
happens. -/
def mergedExcludeContent (g gs e : Option Str) : Str :=
  e.getD [] ++ padOf (e.getD [])
    ++ ("# From ".data ++ GSD_IGNORE_FILE
      ++ '\n' :: (List.intercalate ['\n'] (excludesToAdd g gs e) ++ ['\n']))

/-- The content has a line whose trimmed form is `p`. -/
def hasIgnoreLine (content : Option Str) (p : Str) : Prop :=
  p ∈ (splitLines (content.getD [])).map trimStr

instance (content : Option Str) (p : Str) :
    Decidable (hasIgnoreLine content p) := by
  rw [hasIgnoreLine]
  infer_instance

/-- The `.gitignore` content written by `ensure_gitignore` when a write
happens. -/
def mergedGitignoreContent (gitignore : Option Str) (patterns : List Str) :
    Str :=
  gitignore.getD [] ++ padOf (gitignore.getD [])
    ++ List.intercalate ['\n'] (gitignoreToAdd gitignore patterns) ++ ['\n']

theorem splitLines_ne_nil (s : Str) : splitLines s ≠ [] := by
  induction s with
  | nil => simp [splitLines]
  | cons c cs ih =>
    simp only [splitLines]
    split
    · simp
    · cases h : splitLines cs with
      | nil => simp
      | cons l ls => simp

theorem splitLines_cons_newline (cs : Str) :
    splitLines ('\n' :: cs) = [] :: splitLines cs := by
  simp [splitLines]

theorem splitLines_cons_of_ne (c : Char) (cs : Str) (l : Str) (ls : List Str)
    (hc : c ≠ '\n') (h : splitLines cs = l :: ls) :
    splitLines (c :: cs) = (c :: l) :: ls := by
  simp [splitLines, hc, h]

/-- Splitting distributes over an explicit `'\n'` separator. -/
theorem splitLines_append_newline (a b : Str) :
    splitLines (a ++ '\n' :: b) = splitLines a ++ splitLines b := by
  induction a with
  | nil => simp [splitLines]
  | cons c cs ih =>
    by_cases hc : c = '\n'
    · subst hc
      simp only [List.cons_append, splitLines_cons_newline, ih]
    · cases h : splitLines cs with
      | nil => exact absurd h (splitLines_ne_nil cs)
      | cons l ls =>
        have h2 : splitLines (cs ++ '\n' :: b) = (l :: ls) ++ splitLines b := by
          rw [ih, h]
        rw [List.cons_append,
          splitLines_cons_of_ne c _ l (ls ++ splitLines b) hc (by simpa using h2),
          splitLines_cons_of_ne c _ l ls hc h]
        simp

/-- Fields produced by `splitLines` contain no newline. -/
theorem splitLines_no_newline (s : Str) :
    ∀ f ∈ splitLines s, '\n' ∉ f := by
  induction s with
  | nil =>
    intro f hf
    simp only [splitLines, List.mem_singleton] at hf
    simp [hf]
  | cons c cs ih =>
    intro f hf
    by_cases hc : c = '\n'
    · subst hc
      rw [splitLines_cons_newline] at hf
      rcases List.mem_cons.mp hf with rfl | hf
      · simp
      · exact ih f hf
    · cases h : splitLines cs with
      | nil => exact absurd h (splitLines_ne_nil cs)
      | cons l ls =>
        rw [splitLines_cons_of_ne c cs l ls hc h] at hf
        rcases List.mem_cons.mp hf with rfl | hf
        · intro hmem
          rcases List.mem_cons.mp hmem with h1 | h1
          · exact hc h1.symm
          · exact ih l (h ▸ List.mem_cons_self _ _) h1
        · exact ih f (h ▸ List.mem_cons_of_mem _ hf)

/-- A newline-free string is a single field. -/
theorem splitLines_of_no_newline (s : Str) (h : '\n' ∉ s) :
    splitLines s = [s] := by
  induction s with
  | nil => simp [splitLines]
  | cons c cs ih =>
    have hc : c ≠ '\n' := fun hh => h (hh ▸ List.mem_cons_self _ _)
    have hcs : '\n' ∉ cs := fun hh => h (List.mem_cons_of_mem _ hh)
    simp [splitLines, if_neg hc, ih hcs]

theorem intercalate_nl_singleton (f : Str) :
    List.intercalate ['\n'] [f] = f := by
  simp [List.intercalate]

theorem intercalate_nl_cons_cons (f g : Str) (gs : List Str) :
    List.intercalate ['\n'] (f :: g :: gs)
      = f ++ '\n' :: List.intercalate ['\n'] (g :: gs) := by
  simp [List.intercalate, List.intersperse]

/-- Splitting an interspersed join recovers the fields, when each field is
newline-free. -/
theorem splitLines_intercalate (l : List Str) (hne : l ≠ [])
    (h : ∀ f ∈ l, '\n' ∉ f) :
    splitLines (List.intercalate ['\n'] l) = l := by
  induction l with
  | nil => exact absurd rfl hne
  | cons f fs ih =>
    cases fs with
    | nil =>
      rw [intercalate_nl_singleton]
      exact splitLines_of_no_newline f (h f (List.mem_cons_self _ _))
    | cons g gs =>
      rw [intercalate_nl_cons_cons, splitLines_append_newline,
        splitLines_of_no_newline f (h f (List.mem_cons_self _ _)),
        ih (by simp) (fun x hx => h x (List.mem_cons_of_mem _ hx))]
      rfl

theorem head?_dropWS (s : Str) (c : Char) (h : (dropWS s).head? = some c) :
    ¬ c.isWhitespace := by
  induction s with
  | nil => simp [dropWS] at h
  | cons a as ih =>
    by_cases ha : a.isWhitespace
    · exact ih (by simpa [dropWS, List.dropWhile_cons, ha] using h)
    · simp [dropWS, List.dropWhile_cons, ha] at h
      simpa [← h] using ha

theorem getLast?_dropWS (s : Str) (h : dropWS s ≠ []) :
    (dropWS s).getLast? = s.getLast? := by
  induction s with
  | nil => simp [dropWS] at h
  | cons a as ih =>
    by_cases ha : a.isWhitespace
    · have hd : dropWS (a :: as) = dropWS as := by
        simp [dropWS, List.dropWhile_cons, ha]
      rw [hd] at h ⊢
      rw [ih h]
      have : as ≠ [] := by
        intro hnil
        rw [hnil] at h
        exact h rfl
      cases as with
      | nil => exact absurd rfl this
      | cons b bs => simp [List.getLast?]
    · simp [dropWS, List.dropWhile_cons, ha]

theorem dropWS_of_head (s : Str) (h : ∀ c, s.head? = some c → ¬ c.isWhitespace) :
    dropWS s = s := by
  cases s with
  | nil => rfl
  | cons a as =>
    have := h a rfl
    simp [dropWS, List.dropWhile_cons, this]

theorem dropWS_trimStr (s : Str) : dropWS (trimStr s) = trimStr s := by
  apply dropWS_of_head
  intro c hc
  by_cases hnil : dropWS (dropWS s).reverse = []
  · simp [trimStr, hnil] at hc
  · rw [trimStr, List.head?_reverse, getLast?_dropWS _ hnil,
      List.getLast?_reverse] at hc
    exact head?_dropWS s c hc

theorem mem_trimStr {c : Char} {s : Str} (h : c ∈ trimStr s) : c ∈ s := by
  have h0 := h
  rw [trimStr] at h0
  have h1 : c ∈ dropWS (dropWS s).reverse := List.mem_reverse.mp h0
  have h2 : c ∈ (dropWS s).reverse := (List.dropWhile_sublist _).mem h1
  exact (List.dropWhile_sublist _).mem (List.mem_reverse.mp h2)

theorem dropWS_dropWS (l : Str) : dropWS (dropWS l) = dropWS l := by
  apply dropWS_of_head
  intro c hc
  exact head?_dropWS l c hc

theorem trimStr_idem (s : Str) : trimStr (trimStr s) = trimStr s := by
  show (dropWS (dropWS (trimStr s)).reverse).reverse = trimStr s
  rw [dropWS_trimStr]
  show (dropWS ((dropWS (dropWS s).reverse).reverse).reverse).reverse = _
  rw [List.reverse_reverse, dropWS_dropWS]
  rfl

/-! ## Registry lemmas -/
theorem lookupTarget_cons (a : Str × TargetState) (rest : Registry) (k : Str) :
    lookupTarget (a :: rest) k
      = if a.1 = k then some a.2 else lookupTarget rest k := by
  by_cases h : a.1 = k
  · rw [lookupTarget, List.find?_cons_of_pos _ (by simpa using h), if_pos h]
    rfl
  · rw [lookupTarget, List.find?_cons_of_neg _ (by simpa using h), if_neg h]
    rfl

theorem setTarget_cons (a : Str × TargetState) (rest : Registry) (k : Str)
    (st : TargetState) :
    setTarget (a :: rest) k st
      = (if a.1 = k then (k, st) else a) :: setTarget rest k st := by
  by_cases h : a.1 = k <;> simp [setTarget, h]

theorem removeTarget_cons (a : Str × TargetState) (rest : Registry) (k : Str) :
    removeTarget (a :: rest) k
      = if a.1 = k then removeTarget rest k else a :: removeTarget rest k := by
  by_cases h : a.1 = k <;> simp [removeTarget, List.filter_cons, h]

theorem lookupTarget_setTarget_self (m : Registry) (k : Str)
    (st₀ st : TargetState) (h : lookupTarget m k = some st₀) :
    lookupTarget (setTarget m k st) k = some st := by
  induction m with
  | nil => simp [lookupTarget] at h
  | cons a rest ih =>
    rw [setTarget_cons]
    by_cases ha : a.1 = k
    · rw [if_pos ha, lookupTarget_cons]
      simp
    · rw [lookupTarget_cons, if_neg ha] at h
      rw [if_neg ha, lookupTarget_cons, if_neg ha]
      exact ih h

theorem lookupTarget_setTarget_ne (m : Registry) (k k' : Str)
    (st : TargetState) (h : k' ≠ k) :
    lookupTarget (setTarget m k st) k' = lookupTarget m k' := by
  induction m with
  | nil => simp [setTarget, lookupTarget]
  | cons a rest ih =>
    rw [setTarget_cons, lookupTarget_cons (a := a)]
    by_cases ha : a.1 = k
    · have h1 : ¬((k, st).1 = k') := fun hh => h hh.symm
      have h2 : ¬(a.1 = k') := by
        rw [ha]
        exact fun hh => h hh.symm
      rw [if_pos ha, lookupTarget_cons, if_neg h1, if_neg h2]
      exact ih
    · rw [if_neg ha, lookupTarget_cons]
      by_cases ha' : a.1 = k'
      · rw [if_pos ha', if_pos ha']
      · rw [if_neg ha', if_neg ha']
        exact ih

theorem lookupTarget_removeTarget_self (m : Registry) (k : Str) :
    lookupTarget (removeTarget m k) k = none := by
  rw [lookupTarget, Option.map_eq_none', List.find?_eq_none]
  intro x hx
  have hmem := List.of_mem_filter hx
  simp only [decide_eq_true_eq] at hmem ⊢
  exact hmem

theorem lookupTarget_removeTarget_ne (m : Registry) (k k' : Str) (h : k' ≠ k) :
    lookupTarget (removeTarget m k) k' = lookupTarget m k' := by
  induction m with
  | nil => simp [removeTarget, lookupTarget]
  | cons a rest ih =>
    rw [removeTarget_cons, lookupTarget_cons (a := a)]
    by_cases ha : a.1 = k
    · have h2 : ¬(a.1 = k') := by
        rw [ha]
        exact fun hh => h hh.symm
      rw [if_pos ha, if_neg h2]
      exact ih
    · rw [if_neg ha, lookupTarget_cons]
      by_cases ha' : a.1 = k'
      · rw [if_pos ha', if_pos ha']
      · rw [if_neg ha', if_neg ha']
        exact ih

theorem find?_eq_none_of_lookup_none (m : Registry) (k : Str)
    (h : lookupTarget m k = none) :
    List.find? (fun p => decide (p.1 = k)) m = none := by
  rw [lookupTarget] at h
  exact Option.map_eq_none'.mp h

theorem lookupTarget_insertTarget_self (m : Registry) (k : Str)
    (st : TargetState) : lookupTarget (insertTarget m k st) k = some st := by
  rw [insertTarget]
  by_cases h : (lookupTarget m k).isSome
  · rw [if_pos h]
    obtain ⟨st₀, h₀⟩ := Option.isSome_iff_exists.mp h
    exact lookupTarget_setTarget_self m k st₀ st h₀
  · rw [if_neg h, lookupTarget, List.find?_append,
      find?_eq_none_of_lookup_none m k (Option.not_isSome_iff_eq_none.mp h)]
    simp [List.find?]

theorem lookupTarget_insertTarget_ne (m : Registry) (k k' : Str)
    (st : TargetState) (h : k' ≠ k) :
    lookupTarget (insertTarget m k st) k' = lookupTarget m k' := by
  rw [insertTarget]
  by_cases hs : (lookupTarget m k).isSome
  · rw [if_pos hs]
    exact lookupTarget_setTarget_ne m k k' st h
  · rw [if_neg hs, lookupTarget, List.find?_append]
    have h1 : List.find? (fun p => decide (p.1 = k')) [(k, st)] = none := by
      have h2 : ¬(k = k') := fun hh => h hh.symm
      simp [List.find?, h2]
    rw [h1]
    cases hfm : List.find? (fun p => decide (p.1 = k')) m <;>
      simp [lookupTarget, hfm]

theorem lookupTarget_eq_none_of_not_mem (m : Registry) (k : Str)
    (h : k ∉ m.map (·.1)) : lookupTarget m k = none := by
  rw [lookupTarget, Option.map_eq_none', List.find?_eq_none]
  intro x hx
  simp only [decide_eq_true_eq]
  intro hxk
  exact h (List.mem_map.mpr ⟨x, hx, hxk⟩)

/-! ## C1 and C2: the single-flight guard -/
/-- C1 — Single-flight per target.  If the key's in-flight flag is already
set, `commit_target_static` returns at once, `do_commit` is not invoked
(the returned flag is `false`) and the registry is unchanged; if the key is
absent nothing happens; if the flag is clear, the first critical section
admits the commit and has already set the flag to `true` in the registry
it leaves behind, before any commit work begins. -/
theorem commit_target_static_single_flight (m : Registry) (k : Str)
    (r : Except GitError Unit) :
    (∀ st, lookupTarget m k = some st → st.in_flight = true →
      commit_target_static m k r = (m, false)) ∧
    (lookupTarget m k = none → commit_target_static m k r = (m, false)) ∧
    (∀ st, lookupTarget m k = some st → st.in_flight = false →
      (tryBeginCommit m k).2 = true ∧
      lookupTarget (tryBeginCommit m k).1 k
        = some { st with in_flight := true }) := by
  refine ⟨?_, ?_, ?_⟩
  · intro st hst hif
    simp [commit_target_static, tryBeginCommit, hst, hif]
  · intro hst
    simp [commit_target_static, tryBeginCommit, hst]
  · intro st hst hif
    constructor
    · simp [tryBeginCommit, hst, hif]
    · simp only [tryBeginCommit, hst, hif, Bool.false_eq_true, if_false]
      exact lookupTarget_setTarget_self m k st _ hst

/-- Witness for C1 at concrete registries: an in-flight entry is skipped
with the registry unchanged, an absent key is a no-op, and a clear entry
is admitted with the flag set before the commit work. -/
theorem commit_target_static_single_flight_witness :
    (commit_target_static
        [("a".data, ⟨⟨"a".data, 60, [], true⟩, true, some 0⟩)] "a".data
        (.ok ())
      = ([("a".data, ⟨⟨"a".data, 60, [], true⟩, true, some 0⟩)], false)) ∧
    (commit_target_static ([] : Registry) "b".data (.ok ())
      = (([] : Registry), false)) ∧
    ((tryBeginCommit
        [("a".data, ⟨⟨"a".data, 60, [], true⟩, false, some 0⟩)] "a".data).2
        = true ∧
      lookupTarget (tryBeginCommit
        [("a".data, ⟨⟨"a".data, 60, [], true⟩, false, some 0⟩)] "a".data).1
        "a".data
        = some ⟨⟨"a".data, 60, [], true⟩, true, some 0⟩) :=
  ⟨(commit_target_static_single_flight _ _ _).1
      ⟨⟨"a".data, 60, [], true⟩, true, some 0⟩ (by decide) (by decide),
    (commit_target_static_single_flight _ _ _).2.1 (by decide),
    (commit_target_static_single_flight
      [("a".data, ⟨⟨"a".data, 60, [], true⟩, false, some 0⟩)] "a".data
      (.ok ())).2.2
      ⟨⟨"a".data, 60, [], true⟩, false, some 0⟩ (by decide) (by decide)⟩

/-- C2 — In-flight flag always released.  When the guard admits the commit
(key present, flag clear), `do_commit` is invoked for every outcome `r`,
and afterwards the key holds exactly its previous state with the flag
clear; and in general, after any run that invoked `do_commit`, the key's
flag is clear. -/
theorem commit_target_static_releases_flag (m : Registry) (k : Str)
    (r : Except GitError Unit) :
    (∀ st, lookupTarget m k = some st → st.in_flight = false →
      (commit_target_static m k r).2 = true ∧
      lookupTarget (commit_target_static m k r).1 k = some st) ∧
    ((commit_target_static m k r).2 = true →
      ∃ st', lookupTarget (commit_target_static m k r).1 k = some st' ∧
        st'.in_flight = false) := by
  have main : ∀ st, lookupTarget m k = some st → st.in_flight = false →
      (commit_target_static m k r).2 = true ∧
      lookupTarget (commit_target_static m k r).1 k = some st := by
    intro st hst hif
    have hbegin : tryBeginCommit m k
        = (setTarget m k { st with in_flight := true }, true) := by
      simp [tryBeginCommit, hst, hif]
    have hm1 : lookupTarget (setTarget m k { st with in_flight := true }) k
        = some { st with in_flight := true } :=
      lookupTarget_setTarget_self m k st _ hst
    have hend : endCommit (setTarget m k { st with in_flight := true }) k
        = setTarget (setTarget m k { st with in_flight := true }) k
            { st with in_flight := false } := by
      rw [endCommit, hm1]
    constructor
    · simp [commit_target_static, hbegin]
    · simp only [commit_target_static, hbegin, if_true]
      rw [hend]
      have := lookupTarget_setTarget_self
        (setTarget m k { st with in_flight := true }) k _
        { st with in_flight := false } hm1
      rw [this]
      cases st with
      | mk c f h => cases hif; rfl
  refine ⟨main, ?_⟩
  intro hinv
  rcases hlk : lookupTarget m k with _ | st
  · simp [commit_target_static, tryBeginCommit, hlk] at hinv
  · rcases hif : st.in_flight with _ | _
    · obtain ⟨_, h2⟩ := main st hlk hif
      exact ⟨st, h2, hif⟩
    · simp [commit_target_static, tryBeginCommit, hlk, hif] at hinv

/-- Witness for C2 at a concrete registry and both commit outcomes. -/
theorem commit_target_static_releases_flag_witness :
    ((commit_target_static
        [("a".data, ⟨⟨"a".data, 60, [], true⟩, false, some 3⟩)] "a".data
        (.error .NotAvailable)).2 = true ∧
      lookupTarget (commit_target_static
        [("a".data, ⟨⟨"a".data, 60, [], true⟩, false, some 3⟩)] "a".data
        (.error .NotAvailable)).1 "a".data
        = some ⟨⟨"a".data, 60, [], true⟩, false, some 3⟩) ∧
    ((commit_target_static
        [("a".data, ⟨⟨"a".data, 60, [], true⟩, false, some 3⟩)] "a".data
        (.ok ())).2 = true ∧
      lookupTarget (commit_target_static
        [("a".data, ⟨⟨"a".data, 60, [], true⟩, false, some 3⟩)] "a".data
        (.ok ())).1 "a".data
        = some ⟨⟨"a".data, 60, [], true⟩, false, some 3⟩) :=
  ⟨(commit_target_static_releases_flag _ _ _).1
      ⟨⟨"a".data, 60, [], true⟩, false, some 3⟩ (by decide) (by decide),
    (commit_target_static_releases_flag _ _ _).1
      ⟨⟨"a".data, 60, [], true⟩, false, some 3⟩ (by decide) (by decide)⟩

/-! ## C10: ownership classification -/
/-- C10 — Ownership classification never fails: the result is always `Ok`
with one of the two classifications, `Ours` is returned exactly when the
probe succeeded with `true`, and a probe failure is classified `NoRepo`. -/
theorem check_repo_ownership_total (probe : Except Unit Bool) :
    (check_repo_ownership probe = .ok .NoRepo ∨
      check_repo_ownership probe = .ok .Ours) ∧
    (check_repo_ownership probe = .ok .Ours ↔ probe = .ok true) ∧
    (∀ e, probe = .error e → check_repo_ownership probe = .ok .NoRepo) := by
  rcases probe with e | b
  · refine ⟨Or.inl rfl, ?_, fun _ _ => rfl⟩
    constructor
    · intro h
      simp [check_repo_ownership] at h
    · intro h
      cases h
  · cases b
    · refine ⟨Or.inl rfl, ?_, fun e h => by cases h⟩
      constructor
      · intro h
        simp [check_repo_ownership] at h
      · intro h
        cases h
    · exact ⟨Or.inr rfl, ⟨fun _ => rfl, fun _ => rfl⟩, fun e h => by cases h⟩

/-- Witness for C10 at the probe-failure and probe-success inputs. -/
theorem check_repo_ownership_total_witness :
    check_repo_ownership (.error ()) = .ok .NoRepo ∧
    check_repo_ownership (.ok true) = .ok .Ours :=
  ⟨(check_repo_ownership_total (.error ())).2.2 () rfl,
    (check_repo_ownership_total (.ok true)).2.1.mpr rfl⟩

/-! ## C7: reload failure leaves the live state untouched -/
/-- C7 — Reload-failure atomicity: when loading/parsing the fresh
configuration fails (and likewise when there is no config path to load
from), `reload_config` returns success and the whole service state —
registry entries with their specs, in-flight flags and task handles, and
the previously loaded configuration — is exactly the state from before
the reload attempt. -/
theorem reload_config_failure_atomic (s : ServiceState)
    (initOk : Str → Bool) :
    (∀ e, reload_config s (some (.error e)) initOk = (s, .ok ())) ∧
    reload_config s none initOk = (s, .ok ()) :=
  ⟨fun _ => rfl, rfl⟩

/-! ## C5: commit-message generation -/
/-- C5 — Commit-message generation: with at most `max_files` paths the
message is the comma-joined list with no tail; with more, it is the first
`max_files` paths comma-joined followed by ` +<remaining> more`. -/
theorem format_commit_message_spec (files : List Str) (max_files : Nat) :
    (files.length ≤ max_files →
      format_commit_message files max_files
        = List.intercalate ", ".data files) ∧
    (max_files < files.length →
      format_commit_message files max_files
        = List.intercalate ", ".data (files.take max_files) ++ " +".data
            ++ (Nat.repr (files.length - max_files)).data ++ " more".data) := by
  constructor
  · intro h
    have hrem : files.length - max_files = 0 := Nat.sub_eq_zero_of_le h
    rw [format_commit_message]
    simp only [hrem, gt_iff_lt, lt_self_iff_false, if_false,
      List.take_of_length_le h]
  · intro h
    have hrem : 0 < files.length - max_files := Nat.sub_pos_of_lt h
    rw [format_commit_message]
    simp only [gt_iff_lt, hrem, if_true]

/-- Witness for C5: the spec's two examples, via the theorem. -/
theorem format_commit_message_spec_witness :
    format_commit_message ["a.txt".data, "b.txt".data] 10
      = "a.txt, b.txt".data ∧
    format_commit_message
      ["file0.txt".data, "file1.txt".data, "file2.txt".data,
        "file3.txt".data, "file4.txt".data, "file5.txt".data,
        "file6.txt".data, "file7.txt".data, "file8.txt".data,
        "file9.txt".data, "file10.txt".data, "file11.txt".data,
        "file12.txt".data, "file13.txt".data, "file14.txt".data] 10
      = ("file0.txt, file1.txt, file2.txt, file3.txt, file4.txt, "
          ++ "file5.txt, file6.txt, file7.txt, file8.txt, file9.txt "
          ++ "+5 more").data :=
  ⟨((format_commit_message_spec _ 10).1 (by decide)).trans (by decide),
    ((format_commit_message_spec _ 10).2 (by decide)).trans (by decide)⟩

/-! ## C3: the commit-decision protocol -/
/-- C3 — Commit-decision order.  `do_commit` checks the detached-HEAD
condition first: a detached target aborts the cycle with an error and an
empty action trace (nothing staged, nothing committed), whatever the
status oracles say.  Only then is change detection consulted: no changes
is a successful no-op with an empty trace.  Otherwise the changed paths
are enumerated and staged-and-committed via `commit_all` with exactly the
message `format_commit_message changed_files 10`; when the two git
commands succeed the trace is the stage action followed by the commit
with that message. -/
theorem do_commit_protocol_order (path : Str) (o : CycleOracle) :
    (is_detached_head o.revParse = .ok true →
      do_commit path o = (.error (.DetachedHead path), [])) ∧
    (is_detached_head o.revParse = .ok false →
      has_changes o.statusForHasChanges = .ok false →
      do_commit path o = (.ok (), [])) ∧
    (∀ changed_files, is_detached_head o.revParse = .ok false →
      has_changes o.statusForHasChanges = .ok true →
      list_changed_files o.statusForList = .ok changed_files →
      do_commit path o
        = commit_all (format_commit_message changed_files 10)
            o.addAll o.commit ∧
      (o.addAll.exit_code = 0 → o.commit.exit_code = 0 →
        do_commit path o
          = (.ok (), [.addAll,
              .commit (format_commit_message changed_files 10)]))) := by
  refine ⟨?_, ?_, ?_⟩
  · intro h
    simp [do_commit, h]
  · intro h1 h2
    simp [do_commit, h1, h2]
  · intro changed_files h1 h2 h3
    have hmain : do_commit path o
        = commit_all (format_commit_message changed_files 10)
            o.addAll o.commit := by
      simp [do_commit, h1, h2, h3]
    refine ⟨hmain, ?_⟩
    intro ha hc
    rw [hmain, commit_all]
    simp [ha, hc]

/-- Witness for C3 at three concrete oracles: detached, clean, and one
modified file with succeeding stage/commit commands. -/
theorem do_commit_protocol_order_witness :
    do_commit "p".data
      ⟨⟨"HEAD\n".data, [], 0, false⟩, ⟨[], [], 0, false⟩,
        ⟨[], [], 0, false⟩, ⟨[], [], 0, false⟩, ⟨[], [], 0, false⟩⟩
      = (.error (.DetachedHead "p".data), []) ∧
    do_commit "p".data
      ⟨⟨"main\n".data, [], 0, false⟩, ⟨[], [], 0, false⟩,
        ⟨[], [], 0, false⟩, ⟨[], [], 0, false⟩, ⟨[], [], 0, false⟩⟩
      = (.ok (), []) ∧
    do_commit "p".data
      ⟨⟨"main\n".data, [], 0, false⟩,
        ⟨"M  a.txt".data ++ [Char.ofNat 0], [], 0, false⟩,
        ⟨"M  a.txt".data ++ [Char.ofNat 0], [], 0, false⟩,
        ⟨[], [], 0, false⟩, ⟨[], [], 0, false⟩⟩
      = (.ok (), [.addAll, .commit "a.txt".data]) :=
  ⟨(do_commit_protocol_order _ _).1 (by decide),
    (do_commit_protocol_order _ _).2.1 (by decide) (by decide),
    (((do_commit_protocol_order _ _).2.2 ["a.txt".data] (by decide)
      (by decide) (by decide)).2 (by decide) (by decide)).trans (by decide)⟩

/-! ## C4: status-record parsing -/
theorem mem_dedupAdj {x : Str} : ∀ (l : List Str), x ∈ dedupAdj l → x ∈ l
  | [] => by simp [dedupAdj]
  | [a] => by simp [dedupAdj]
  | a :: b :: rest => by
    intro h
    rw [dedupAdj] at h
    by_cases hab : a = b
    · rw [if_pos hab] at h
      exact List.mem_cons_of_mem _ (mem_dedupAdj (b :: rest) h)
    · rw [if_neg hab] at h
      rcases List.mem_cons.mp h with rfl | h
      · exact List.mem_cons_self _ _
      · exact List.mem_cons_of_mem _ (mem_dedupAdj (b :: rest) h)

theorem dedupAdj_sorted : ∀ (l : List Str), l.Sorted (· ≤ ·) →
    (dedupAdj l).Sorted (· < ·)
  | [] => by simp [dedupAdj]
  | [a] => by simp [dedupAdj]
  | a :: b :: rest => by
    intro h
    have hab_le : a ≤ b := List.rel_of_sorted_cons h b (List.mem_cons_self _ _)
    have htail : (b :: rest).Sorted (· ≤ ·) := h.of_cons
    rw [dedupAdj]
    by_cases hab : a = b
    · rw [if_pos hab]
      exact dedupAdj_sorted (b :: rest) htail
    · rw [if_neg hab]
      refine List.sorted_cons.mpr ⟨?_, dedupAdj_sorted (b :: rest) htail⟩
      intro c hc
      rcases List.mem_cons.mp (mem_dedupAdj (b :: rest) hc) with rfl | hcr
      · exact lt_of_le_of_ne hab_le hab
      · exact lt_of_lt_of_le (lt_of_le_of_ne hab_le hab)
          (List.rel_of_sorted_cons htail c hcr)

/-- C4 — Status-record parsing.  A record of well-formed length whose
status code starts with the rename/copy indicator and that is followed by
another record contributes only that following record's content (its own
path field is dropped, and the following record is consumed); any other
well-formed record contributes its path field (everything after the
two-character code and separator) verbatim; and the final path list is
always lexicographically sorted and duplicate-free. -/
theorem list_changed_files_parsing :
    (∀ (entry next : Str) (rest : List Str), 4 ≤ entry.length →
      ((entry.take 2).head? = some 'R' ∨ (entry.take 2).head? = some 'C') →
      parseStatusEntries (entry :: next :: rest)
        = next :: parseStatusEntries rest) ∧
    (∀ (entry : Str) (rest : List Str), 4 ≤ entry.length →
      ¬((entry.take 2).head? = some 'R' ∨ (entry.take 2).head? = some 'C') →
      parseStatusEntries (entry :: rest)
        = entry.drop 3 :: parseStatusEntries rest) ∧
    (∀ stdout : Str, (listChangedFilesPure stdout).Sorted (· ≤ ·) ∧
      (listChangedFilesPure stdout).Nodup) := by
  refine ⟨?_, ?_, ?_⟩
  · intro entry next rest h4 hRC
    rw [parseStatusEntries, if_neg (Nat.not_lt.mpr h4)]
    simp only [hRC, if_true]
  · intro entry rest h4 hRC
    rw [parseStatusEntries, if_neg (Nat.not_lt.mpr h4), if_neg hRC]
  · intro stdout
    have hsorted : (sortPaths (parseStatusEntries
        ((splitNul stdout).filter (fun s => !s.isEmpty)))).Sorted (· ≤ ·) :=
      List.sorted_insertionSort _ _
    have hchain := dedupAdj_sorted _ hsorted
    constructor
    · exact hchain.imp (fun h => le_of_lt h)
    · exact List.Pairwise.imp (fun h => ne_of_lt h) hchain

/-- Witness for C4: a rename record keeps only the destination, an
ordinary record keeps its path, and a status output with duplicates comes
back sorted and deduplicated. -/
theorem list_changed_files_parsing_witness :
    parseStatusEntries ["R  old.txt".data, "new.txt".data, "M  b.txt".data]
      = ["new.txt".data, "b.txt".data] ∧
    parseStatusEntries ["M  b.txt".data] = ["b.txt".data] ∧
    ((listChangedFilesPure ("M  b.txt".data ++ [Char.ofNat 0]
        ++ "M  a.txt".data ++ [Char.ofNat 0] ++ "M  b.txt".data
        ++ [Char.ofNat 0])).Sorted (· ≤ ·) ∧
      (listChangedFilesPure ("M  b.txt".data ++ [Char.ofNat 0]
        ++ "M  a.txt".data ++ [Char.ofNat 0] ++ "M  b.txt".data
        ++ [Char.ofNat 0])).Nodup) :=
  ⟨(list_changed_files_parsing.1 "R  old.txt".data "new.txt".data
      ["M  b.txt".data] (by decide) (by decide)).trans (by decide),
    (list_changed_files_parsing.2.1 "M  b.txt".data [] (by decide)
      (by decide)).trans (by decide),
    list_changed_files_parsing.2.2 _⟩

/-! ## Line-structure lemmas for the ignore/exclude merges -/
theorem splitLines_intercalate_flatten (l : List Str) (hne : l ≠ []) :
    splitLines (List.intercalate ['\n'] l) = (l.map splitLines).flatten := by
  induction l with
  | nil => exact absurd rfl hne
  | cons f fs ih =>
    cases fs with
    | nil => simp [intercalate_nl_singleton]
    | cons g gs =>
      rw [intercalate_nl_cons_cons, splitLines_append_newline, ih (by simp)]
      simp

theorem eq_dropLast_append_newline (e : Str) (he : e ≠ [])
    (hl : e.getLast? = some '\n') : e = e.dropLast ++ ['\n'] := by
  have hgl : e.getLast he = '\n' := by
    have h := List.getLast?_eq_getLast e he
    rw [hl] at h
    exact (Option.some.inj h).symm
  conv_lhs => rw [← List.dropLast_append_getLast he, hgl]

theorem splitLines_append_pad (e X : Str) :
    splitLines (e ++ padOf e ++ X) = linesBeforeAppend e ++ splitLines X := by
  by_cases he : e = []
  · subst he
    simp [padOf, linesBeforeAppend]
  · by_cases hl : e.getLast? = some '\n'
    · have hpad : padOf e = [] := by
        rw [padOf, if_pos (Or.inr hl)]
      have he2 := eq_dropLast_append_newline e he hl
      have hsplit : splitLines e = splitLines e.dropLast ++ [[]] := by
        conv_lhs => rw [he2]
        have : e.dropLast ++ ['\n'] = e.dropLast ++ '\n' :: [] := rfl
        rw [this, splitLines_append_newline]
        rfl
      rw [hpad, List.append_nil]
      conv_lhs => rw [he2]
      have : (e.dropLast ++ ['\n']) ++ X = e.dropLast ++ '\n' :: X := by
        rw [List.append_assoc]
        rfl
      rw [this, splitLines_append_newline, linesBeforeAppend, if_neg he,
        if_pos hl, hsplit, List.dropLast_concat]
    · have hpad : padOf e = ['\n'] := by
        rw [padOf, if_neg]
        rintro (h | h)
        · exact he h
        · exact hl h
      have : e ++ padOf e ++ X = e ++ '\n' :: X := by
        rw [hpad, List.append_assoc]
        rfl
      rw [this, splitLines_append_newline, linesBeforeAppend, if_neg he,
        if_neg hl]

theorem mem_linesBeforeAppend (e f : Str) (hf : f ∈ splitLines e)
    (hne : f ≠ []) : f ∈ linesBeforeAppend e := by
  by_cases he : e = []
  · subst he
    simp only [splitLines, List.mem_singleton] at hf
    exact absurd hf hne
  · by_cases hl : e.getLast? = some '\n'
    · have he2 := eq_dropLast_append_newline e he hl
      have hsplit : splitLines e = splitLines e.dropLast ++ [[]] := by
        conv_lhs => rw [he2]
        have : e.dropLast ++ ['\n'] = e.dropLast ++ '\n' :: [] := rfl
        rw [this, splitLines_append_newline]
        rfl
      rw [linesBeforeAppend, if_neg he, if_pos hl, hsplit,
        List.dropLast_concat]
      rw [hsplit] at hf
      rcases List.mem_append.mp hf with h | h
      · exact h
      · simp only [List.mem_singleton] at h
        exact absurd h hne
    · rw [linesBeforeAppend, if_neg he, if_neg hl]
      exact hf

theorem mem_patternLines {c : Str} {content : Str} :
    c ∈ patternLines content ↔
      (∃ f ∈ splitLines content, trimStr f = c) ∧ isPatternLine c = true := by
  simp [patternLines, List.mem_filter]

theorem ne_nil_of_isPatternLine {c : Str} (h : isPatternLine c = true) :
    c ≠ [] := by
  cases c with
  | nil => simp [isPatternLine] at h
  | cons a as => simp

theorem patternLines_append_pad (e X c : Str) (h : c ∈ patternLines e) :
    c ∈ patternLines (e ++ padOf e ++ X) := by
  obtain ⟨⟨f, hf, htr⟩, hpat⟩ := mem_patternLines.mp h
  have hfne : f ≠ [] := by
    intro hnil
    rw [hnil] at htr
    exact ne_nil_of_isPatternLine hpat htr.symm
  refine mem_patternLines.mpr ⟨⟨f, ?_, htr⟩, hpat⟩
  rw [splitLines_append_pad]
  exact List.mem_append_left _ (mem_linesBeforeAppend e f hf hfne)

theorem excludesToAdd_mem_props (g gs e : Option Str) (p : Str)
    (hp : p ∈ excludesToAdd g gs e) :
    trimStr p = p ∧ '\n' ∉ p ∧ isPatternLine p = true ∧
      p ∉ patternLines (e.getD []) := by
  rw [excludesToAdd] at hp
  obtain ⟨hp1, hcond⟩ := List.mem_filter.mp hp
  obtain ⟨f, hf, htr⟩ := List.mem_map.mp hp1
  rw [Bool.and_eq_true, decide_eq_true_iff] at hcond
  refine ⟨?_, ?_, hcond.1, hcond.2⟩
  · rw [← htr]
    exact trimStr_idem f
  · intro hmem
    exact splitLines_no_newline _ f hf (mem_trimStr (htr ▸ hmem))

theorem to_add_block_mem_patternLines (existing : Str) (to_add : List Str)
    (c : Str) (hta : to_add ≠ []) (hnl : ∀ p ∈ to_add, '\n' ∉ p)
    (htr : trimStr c = c) (hpat : isPatternLine c = true) (hc : c ∈ to_add) :
    c ∈ patternLines (existing ++ padOf existing
      ++ ("# From ".data ++ GSD_IGNORE_FILE
        ++ '\n' :: (List.intercalate ['\n'] to_add ++ ['\n']))) := by
  refine mem_patternLines.mpr ⟨⟨c, ?_, htr⟩, hpat⟩
  rw [splitLines_append_pad]
  refine List.mem_append_right _ ?_
  have hhdr : "# From ".data ++ GSD_IGNORE_FILE
      ++ '\n' :: (List.intercalate ['\n'] to_add ++ ['\n'])
      = ("# From ".data ++ GSD_IGNORE_FILE)
        ++ '\n' :: (List.intercalate ['\n'] to_add ++ ['\n']) := by
    rw [List.append_assoc]
  rw [hhdr, splitLines_append_newline]
  refine List.mem_append_right _ ?_
  have htail : List.intercalate ['\n'] to_add ++ ['\n']
      = List.intercalate ['\n'] to_add ++ '\n' :: [] := rfl
  rw [htail, splitLines_append_newline]
  refine List.mem_append_left _ ?_
  rw [splitLines_intercalate to_add hta hnl]
  exact hc

/-! ## C9: the exclude merge is append-only and idempotent -/
theorem setup_gsd_excludes_unchanged_guard (g gs e : Option Str)
    (h : trimStr (combinedPatterns g gs) = []) :
    setup_gsd_excludes g gs e = e := by
  simp [setup_gsd_excludes, h]

theorem setup_gsd_excludes_unchanged_empty (g gs e : Option Str)
    (h : excludesToAdd g gs e = []) :
    setup_gsd_excludes g gs e = e := by
  simp [setup_gsd_excludes, h]

theorem setup_gsd_excludes_changed (g gs e : Option Str)
    (hg : trimStr (combinedPatterns g gs) ≠ [])
    (hta : excludesToAdd g gs e ≠ []) :
    setup_gsd_excludes g gs e = some (mergedExcludeContent g gs e) := by
  simp [setup_gsd_excludes, mergedExcludeContent, hg, hta]

theorem patternLines_mono_merged (g gs e : Option Str) (c : Str)
    (h : c ∈ patternLines (e.getD [])) :
    c ∈ patternLines (mergedExcludeContent g gs e) := by
  rw [mergedExcludeContent]
  exact patternLines_append_pad _ _ c h

theorem excludesToAdd_mem_merged (g gs e : Option Str) (c : Str)
    (hta : excludesToAdd g gs e ≠ []) (hc : c ∈ excludesToAdd g gs e) :
    c ∈ patternLines (mergedExcludeContent g gs e) := by
  obtain ⟨htr, _, hpat, _⟩ := excludesToAdd_mem_props g gs e c hc
  rw [mergedExcludeContent]
  exact to_add_block_mem_patternLines _ _ c hta
    (fun p hp => (excludesToAdd_mem_props g gs e p hp).2.1) htr hpat hc

/-- C9 — Ignore-override merge is append-only and idempotent: the previous
exclude-file content is a prefix of the merged content; every pattern the
merge appends was absent from the previously recorded patterns (comparing
trimmed, non-empty, non-comment lines); and re-running the merge on its
own output with unchanged inputs leaves the exclude content unchanged. -/
theorem setup_gsd_excludes_append_only_idempotent (g gs e : Option Str) :
    (∃ t, (setup_gsd_excludes g gs e).getD [] = e.getD [] ++ t) ∧
    (∀ p ∈ excludesToAdd g gs e, p ∉ patternLines (e.getD [])) ∧
    setup_gsd_excludes g gs (setup_gsd_excludes g gs e)
      = setup_gsd_excludes g gs e := by
  refine ⟨?_, ?_, ?_⟩
  · by_cases hg : trimStr (combinedPatterns g gs) = []
    · exact ⟨[], by rw [setup_gsd_excludes_unchanged_guard g gs e hg,
        List.append_nil]⟩
    · by_cases hta : excludesToAdd g gs e = []
      · exact ⟨[], by rw [setup_gsd_excludes_unchanged_empty g gs e hta,
          List.append_nil]⟩
      · refine ⟨padOf (e.getD [])
          ++ ("# From ".data ++ GSD_IGNORE_FILE
            ++ '\n' :: (List.intercalate ['\n'] (excludesToAdd g gs e)
              ++ ['\n'])), ?_⟩
        rw [setup_gsd_excludes_changed g gs e hg hta]
        simp [mergedExcludeContent]
  · intro p hp
    exact (excludesToAdd_mem_props g gs e p hp).2.2.2
  · by_cases hg : trimStr (combinedPatterns g gs) = []
    · rw [setup_gsd_excludes_unchanged_guard g gs e hg]
      exact setup_gsd_excludes_unchanged_guard g gs e hg
    · by_cases hta : excludesToAdd g gs e = []
      · rw [setup_gsd_excludes_unchanged_empty g gs e hta]
        exact setup_gsd_excludes_unchanged_empty g gs e hta
      · rw [setup_gsd_excludes_changed g gs e hg hta]
        have h2 : excludesToAdd g gs (some (mergedExcludeContent g gs e))
            = [] := by
          rw [excludesToAdd]
          apply List.filter_eq_nil_iff.mpr
          intro c hc
          rw [Bool.and_eq_true]
          rintro ⟨hpat, hdec⟩
          rw [decide_eq_true_iff] at hdec
          apply hdec
          show c ∈ patternLines (mergedExcludeContent g gs e)
          by_cases hck : c ∈ patternLines (e.getD [])
          · exact patternLines_mono_merged g gs e c hck
          · have hcta : c ∈ excludesToAdd g gs e := by
              rw [excludesToAdd]
              refine List.mem_filter.mpr ⟨hc, ?_⟩
              rw [Bool.and_eq_true]
              exact ⟨hpat, decide_eq_true hck⟩
            exact excludesToAdd_mem_merged g gs e c hta hcta
        exact setup_gsd_excludes_unchanged_empty g gs
          (some (mergedExcludeContent g gs e)) h2

/-- Witness for C9 at concrete ignore/override/exclude contents. -/
theorem setup_gsd_excludes_append_only_idempotent_witness :
    ("*.tmp".data ∉ patternLines ((none : Option Str).getD [])) ∧
    setup_gsd_excludes (some "*.tmp\n".data) (some "*.log\n".data)
        (setup_gsd_excludes (some "*.tmp\n".data) (some "*.log\n".data) none)
      = setup_gsd_excludes (some "*.tmp\n".data) (some "*.log\n".data) none :=
  ⟨(setup_gsd_excludes_append_only_idempotent (some "*.tmp\n".data)
      (some "*.log\n".data) none).2.1 "*.tmp".data (by decide),
    (setup_gsd_excludes_append_only_idempotent (some "*.tmp\n".data)
      (some "*.log\n".data) none).2.2⟩

/-! ## C8: force-exclusion of the metadata directory -/
theorem ensure_gitignore_unchanged_known (g : Option Str)
    (patterns : List Str) (h : gitignoreToAdd g patterns = []) :
    (ensure_gitignore g patterns).1 = g := by
  simp [ensure_gitignore, h]

theorem ensure_gitignore_changed (g : Option Str) (patterns : List Str)
    (hp : patterns ≠ []) (hta : gitignoreToAdd g patterns ≠ []) :
    (ensure_gitignore g patterns).1
      = some (mergedGitignoreContent g patterns) := by
  simp [ensure_gitignore, mergedGitignoreContent, hp, hta]

/-- After merging a newline-free, trimmed, non-empty pattern given first in
the pattern list, the resulting `.gitignore` content has it as a line. -/
theorem ensure_gitignore_has_pattern (g : Option Str) (p : Str)
    (ps : List Str) (hnl : '\n' ∉ p) (htr : trimStr p = p) (hne : p ≠ []) :
    hasIgnoreLine (ensure_gitignore g (p :: ps)).1 p := by
  by_cases hta : gitignoreToAdd g (p :: ps) = []
  · rw [ensure_gitignore_unchanged_known g _ hta]
    have hk : p ∈ knownGitignoreLines (g.getD []) := by
      have h := List.filter_eq_nil_iff.mp hta p (List.mem_cons_self p ps)
      simpa using h
    rw [hasIgnoreLine]
    exact List.mem_of_mem_filter hk
  · rw [ensure_gitignore_changed g (p :: ps) (by simp) hta]
    rw [hasIgnoreLine, Option.getD_some, mergedGitignoreContent]
    have hassoc : g.getD [] ++ padOf (g.getD [])
        ++ List.intercalate ['\n'] (gitignoreToAdd g (p :: ps)) ++ ['\n']
        = g.getD [] ++ padOf (g.getD [])
          ++ (List.intercalate ['\n'] (gitignoreToAdd g (p :: ps))
            ++ '\n' :: []) := by
      rw [List.append_assoc (g.getD [] ++ padOf (g.getD []))]
    rw [hassoc, splitLines_append_pad]
    by_cases hk : p ∈ knownGitignoreLines (g.getD [])
    · obtain ⟨f, hf, htr2⟩ := List.mem_map.mp (List.mem_of_mem_filter hk)
      have hfne : f ≠ [] := by
        intro hnil
        rw [hnil] at htr2
        exact hne htr2.symm
      exact List.mem_map.mpr ⟨f,
        List.mem_append_left _ (mem_linesBeforeAppend _ f hf hfne), htr2⟩
    · have hpta : p ∈ gitignoreToAdd g (p :: ps) := by
        rw [gitignoreToAdd]
        exact List.mem_filter.mpr
          ⟨List.mem_cons_self _ _, decide_eq_true hk⟩
      refine List.mem_map.mpr ⟨p, List.mem_append_right _ ?_, htr⟩
      rw [splitLines_append_newline]
      refine List.mem_append_left _ ?_
      rw [splitLines_intercalate_flatten _ hta]
      exact List.mem_flatten.mpr ⟨splitLines p,
        List.mem_map.mpr ⟨p, hpta, rfl⟩,
        by rw [splitLines_of_no_newline p hnl]; exact List.mem_singleton.mpr rfl⟩

/-- Counterexample to C8 as stated: a successful re-run of the
initialization protocol on an already-owned directory with no `.gitignore`
and no configured patterns leaves the ignore file absent — the `".gsd/"`
pattern is not merged on such a call. -/
theorem ensure_repo_initialized_rerun_no_force_exclude :
    ensure_repo_initialized ⟨true, none, none, none⟩
        (fun _ => ⟨[], [], 0, false⟩) []
      = .ok ⟨true, none, none, none⟩ ∧
    ¬ hasIgnoreLine (Fs.gitignore ⟨true, none, none, none⟩)
        (GSD_DIR ++ "/".data) := by
  exact ⟨by decide, by decide⟩

/-- C8 (amended) — Fresh initialization always force-excludes the metadata
directory: whenever `ensure_repo_initialized` runs on a directory that is
not yet owned and succeeds, the resulting `.gitignore` contains the
`".gsd/"` pattern as a line.  (Re-runs on an already-owned directory merge
only the configured patterns.) -/
theorem ensure_repo_initialized_fresh_force_excludes (fs : Fs)
    (cmds : InitCmd → GitCommandResult) (ignore_patterns : List Str)
    (fs' : Fs) (hfresh : fs.gsdExists = false)
    (hok : ensure_repo_initialized fs cmds ignore_patterns = .ok fs') :
    hasIgnoreLine fs'.gitignore (GSD_DIR ++ "/".data) := by
  rw [ensure_repo_initialized] at hok
  rw [hfresh] at hok
  simp only [Bool.false_eq_true, if_false] at hok
  split_ifs at hok with h1 h2 h3
  rw [Except.ok.injEq] at hok
  subst hok
  show hasIgnoreLine
    (ensure_gitignore fs.gitignore ((GSD_DIR ++ "/".data)
      :: ignore_patterns)).1 (GSD_DIR ++ "/".data)
  exact ensure_gitignore_has_pattern fs.gitignore _ ignore_patterns
    (by decide) (by decide) (by decide)

/-- Witness for the amended C8: a concrete fresh initialization, whose
resulting `.gitignore` is `".gsd/\n"`. -/
theorem ensure_repo_initialized_fresh_force_excludes_witness :
    hasIgnoreLine (some ".gsd/\n".data) (GSD_DIR ++ "/".data) :=
  ensure_repo_initialized_fresh_force_excludes
    ⟨false, none, none, none⟩ (fun _ => ⟨[], [], 0, false⟩) []
    ⟨true, some ".gsd/\n".data, none, some "# From .gsdignore\n.gsd/\n".data⟩
    rfl (by decide)

/-! ## C6: reconciliation -/
theorem enabled_eq_false_of_not_true {b : Bool} (h : ¬ b = true) :
    b = false := by
  cases b
  · rfl
  · exact absurd rfl h

theorem reloadStep_disabled (io : Str → Bool) (s : ServiceState)
    (t : TargetConfig) (h : t.enabled = false) : reloadStep io s t = s := by
  simp [reloadStep, h]

theorem svcAddTarget_lookup_self (io : Str → Bool) (s : ServiceState)
    (t : TargetConfig) :
    lookupTarget (svcAddTarget io s t).registry t.path
      = if io t.path
          then some ⟨t, false, some s.nextHandle⟩
          else lookupTarget s.registry t.path := by
  rw [svcAddTarget]
  by_cases h : io t.path
  · simp only [h, if_true]
    exact lookupTarget_insertTarget_self _ _ _
  · simp [h]

theorem svcAddTarget_lookup_ne (io : Str → Bool) (s : ServiceState)
    (t : TargetConfig) (k : Str) (hk : k ≠ t.path) :
    lookupTarget (svcAddTarget io s t).registry k
      = lookupTarget s.registry k := by
  rw [svcAddTarget]
  by_cases h : io t.path
  · simp only [h, if_true]
    exact lookupTarget_insertTarget_ne _ _ _ _ hk
  · simp [h]

theorem reloadStep_frame (io : Str → Bool) (s : ServiceState)
    (t : TargetConfig) (k : Str) (hk : k ≠ t.path) :
    lookupTarget (reloadStep io s t).registry k
      = lookupTarget s.registry k := by
  rw [reloadStep]
  by_cases he : t.enabled = true
  · simp only [he, Bool.not_true, Bool.false_eq_true, if_false]
    have hs1 : lookupTarget (if needsRestart s t
        then svcRemoveTarget s t.path else s).registry k
        = lookupTarget s.registry k := by
      by_cases hnr : needsRestart s t = true
      · rw [if_pos hnr]
        exact lookupTarget_removeTarget_ne _ _ _ hk
      · rw [if_neg hnr]
    by_cases hex : (lookupTarget (if needsRestart s t
        then svcRemoveTarget s t.path else s).registry t.path).isSome = true
    · rw [if_pos hex]
      exact hs1
    · rw [if_neg hex, svcAddTarget_lookup_ne io _ t k hk]
      exact hs1
  · rw [if_pos (by rw [enabled_eq_false_of_not_true he]; rfl)]

theorem reloadStep_nextHandle_mono (io : Str → Bool) (s : ServiceState)
    (t : TargetConfig) : s.nextHandle ≤ (reloadStep io s t).nextHandle := by
  rw [reloadStep]
  by_cases he : (!t.enabled) = true
  · rw [if_pos he]
  · rw [if_neg he]
    have hs1 : (if needsRestart s t then svcRemoveTarget s t.path
        else s).nextHandle = s.nextHandle := by
      by_cases hnr : needsRestart s t = true
      · rw [if_pos hnr]
        rfl
      · rw [if_neg hnr]
    by_cases hex : (lookupTarget (if needsRestart s t
        then svcRemoveTarget s t.path else s).registry t.path).isSome = true
    · rw [if_pos hex, hs1]
    · rw [if_neg hex, svcAddTarget]
      by_cases hio : io t.path
      · simp only [hio, if_true, hs1]
        exact Nat.le_succ _
      · simp only [hio, Bool.false_eq_true, if_false, hs1]
        exact Nat.le_refl _

theorem reloadStep_untouched (io : Str → Bool) (s : ServiceState)
    (t : TargetConfig) (st : TargetState)
    (hl : lookupTarget s.registry t.path = some st)
    (hi : st.config.interval_seconds = t.interval_seconds) :
    reloadStep io s t = s := by
  rw [reloadStep]
  by_cases he : t.enabled = true
  · simp only [he, Bool.not_true, Bool.false_eq_true, if_false]
    have hnr : needsRestart s t = false := by
      rw [needsRestart, hl]
      simp [hi]
    rw [hnr]
    simp only [Bool.false_eq_true, if_false, hl, Option.isSome_some, if_true]
  · rw [if_pos (by rw [enabled_eq_false_of_not_true he]; rfl)]

theorem reloadStep_restart (io : Str → Bool) (s : ServiceState)
    (t : TargetConfig) (st : TargetState) (he : t.enabled = true)
    (hl : lookupTarget s.registry t.path = some st)
    (hi : st.config.interval_seconds ≠ t.interval_seconds) :
    reloadStep io s t = svcAddTarget io (svcRemoveTarget s t.path) t := by
  rw [reloadStep]
  simp only [he, Bool.not_true, Bool.false_eq_true, if_false]
  have hnr : needsRestart s t = true := by
    rw [needsRestart, hl]
    simp [hi]
  rw [hnr]
  simp only [if_true]
  have hg : lookupTarget (svcRemoveTarget s t.path).registry t.path
      = none := lookupTarget_removeTarget_self _ _
  rw [hg]
  simp

theorem reloadStep_absent (io : Str → Bool) (s : ServiceState)
    (t : TargetConfig) (he : t.enabled = true)
    (hl : lookupTarget s.registry t.path = none) :
    reloadStep io s t = svcAddTarget io s t := by
  rw [reloadStep]
  simp only [he, Bool.not_true, Bool.false_eq_true, if_false]
  have hnr : needsRestart s t = false := by
    rw [needsRestart, hl]
  rw [hnr]
  simp only [Bool.false_eq_true, if_false, hl]
  simp

theorem foldl_reloadStep_frame (io : Str → Bool) (ts : List TargetConfig)
    (s : ServiceState) (k : Str)
    (hk : ∀ t ∈ ts, t.enabled = true → t.path ≠ k) :
    lookupTarget ((ts.foldl (reloadStep io) s).registry) k
      = lookupTarget s.registry k := by
  induction ts generalizing s with
  | nil => rfl
  | cons t ts ih =>
    rw [List.foldl_cons,
      ih _ (fun t' ht' => hk t' (List.mem_cons_of_mem _ ht'))]
    by_cases he : t.enabled = true
    · exact reloadStep_frame io s t k
        (Ne.symm (hk t (List.mem_cons_self _ _) he))
    · rw [reloadStep_disabled io s t (enabled_eq_false_of_not_true he)]

theorem foldl_reloadStep_nextHandle_mono (io : Str → Bool)
    (ts : List TargetConfig) (s : ServiceState) :
    s.nextHandle ≤ ((ts.foldl (reloadStep io) s)).nextHandle := by
  induction ts generalizing s with
  | nil => exact Nat.le_refl _
  | cons t ts ih =>
    rw [List.foldl_cons]
    exact Nat.le_trans (reloadStep_nextHandle_mono io s t) (ih _)

theorem phase1_lookup_mem (ps ntp : List Str) (s : ServiceState) (k : Str)
    (hk : k ∈ ntp) :
    lookupTarget ((ps.foldl (fun acc p =>
        if p ∈ ntp then acc else svcRemoveTarget acc p) s).registry) k
      = lookupTarget s.registry k := by
  induction ps generalizing s with
  | nil => rfl
  | cons p ps ih =>
    rw [List.foldl_cons, ih]
    by_cases hp : p ∈ ntp
    · rw [if_pos hp]
    · rw [if_neg hp]
      exact lookupTarget_removeTarget_ne _ _ _ (fun hkp => hp (hkp ▸ hk))

theorem phase1_lookup_none (ps ntp : List Str) (s : ServiceState) (k : Str)
    (hnone : lookupTarget s.registry k = none) :
    lookupTarget ((ps.foldl (fun acc p =>
        if p ∈ ntp then acc else svcRemoveTarget acc p) s).registry) k
      = none := by
  induction ps generalizing s with
  | nil => exact hnone
  | cons p ps ih =>
    rw [List.foldl_cons]
    apply ih
    by_cases hp : p ∈ ntp
    · rw [if_pos hp]
      exact hnone
    · rw [if_neg hp]
      by_cases hkp : k = p
      · subst hkp
        exact lookupTarget_removeTarget_self _ _
      · exact (lookupTarget_removeTarget_ne _ _ _ hkp).trans hnone

theorem phase1_lookup_removed (ps ntp : List Str) (s : ServiceState) (k : Str)
    (hk : k ∉ ntp) (hin : k ∈ ps) :
    lookupTarget ((ps.foldl (fun acc p =>
        if p ∈ ntp then acc else svcRemoveTarget acc p) s).registry) k
      = none := by
  induction ps generalizing s with
  | nil => exact absurd hin (List.not_mem_nil k)
  | cons p ps ih =>
    rw [List.foldl_cons]
    rcases List.mem_cons.mp hin with rfl | hin'
    · rw [if_neg hk]
      exact phase1_lookup_none ps ntp _ k (lookupTarget_removeTarget_self _ _)
    · exact ih _ hin'

theorem phase1_nextHandle (ps ntp : List Str) (s : ServiceState) :
    ((ps.foldl (fun acc p =>
        if p ∈ ntp then acc else svcRemoveTarget acc p) s)).nextHandle
      = s.nextHandle := by
  induction ps generalizing s with
  | nil => rfl
  | cons p ps ih =>
    rw [List.foldl_cons, ih]
    by_cases hp : p ∈ ntp
    · rw [if_pos hp]
    · rw [if_neg hp]
      rfl

theorem not_mem_sides_of_nodup_middle {α : Type} {xs ys : List α} {y : α}
    (h : (xs ++ y :: ys).Nodup) : y ∉ xs ∧ y ∉ ys := by
  rw [List.nodup_append] at h
  obtain ⟨h1, h2, h3⟩ := h
  exact ⟨fun hy => (h3 hy) (List.mem_cons_self _ _),
    (List.nodup_cons.mp h2).1⟩

theorem mem_enabledPaths (cfg : Config) (t : TargetConfig)
    (ht : t ∈ cfg.targets) (hen : t.enabled = true) :
    t.path ∈ enabledPaths cfg :=
  List.mem_map.mpr ⟨t, List.mem_filter.mpr ⟨ht, hen⟩, rfl⟩

theorem enabled_path_ne_of_nodup (cfg : Config) (t : TargetConfig)
    (l₁ l₂ : List TargetConfig) (hsplit : cfg.targets = l₁ ++ t :: l₂)
    (hen : t.enabled = true) (hNodup : (enabledPaths cfg).Nodup) :
    (∀ t' ∈ l₁, t'.enabled = true → t'.path ≠ t.path) ∧
    (∀ t' ∈ l₂, t'.enabled = true → t'.path ≠ t.path) := by
  have hshape : enabledPaths cfg
      = (l₁.filter (·.enabled)).map (·.path)
        ++ t.path :: (l₂.filter (·.enabled)).map (·.path) := by
    rw [enabledPaths, hsplit, List.filter_append,
      List.filter_cons_of_pos hen, List.map_append, List.map_cons]
  rw [hshape] at hNodup
  obtain ⟨hA, hB⟩ := not_mem_sides_of_nodup_middle hNodup
  constructor
  · intro t' ht' hen' heq
    exact hA (List.mem_map.mpr ⟨t', List.mem_filter.mpr ⟨ht', hen'⟩, heq⟩)
  · intro t' ht' hen' heq
    exact hB (List.mem_map.mpr ⟨t', List.mem_filter.mpr ⟨ht', hen'⟩, heq⟩)

/-- C6 (amended) — Reconciliation convergence.  After a successful reload
with pairwise-distinct enabled target paths: every registered key outside
the new enabled set is removed; a target registered with an unchanged
interval keeps its exact entry (spec, in-flight flag, task handle); a
target whose interval changed is cancelled and re-initialized — on
initialization success it is re-registered with a fresh task handle (an
identifier not previously allocated) and a clean non-in-flight state, on
failure it is left unregistered; a target not registered before is
registered, with a started task and clean state, exactly when its
initialization succeeds. -/
theorem reload_config_reconciliation (s : ServiceState) (cfg : Config)
    (io : Str → Bool) (hNodup : (enabledPaths cfg).Nodup) :
    (∀ k, k ∉ enabledPaths cfg →
      lookupTarget ((reload_config s (some (.ok cfg)) io).1).registry k
        = none) ∧
    (∀ t st, t ∈ cfg.targets → t.enabled = true →
      lookupTarget s.registry t.path = some st →
      st.config.interval_seconds = t.interval_seconds →
      lookupTarget ((reload_config s (some (.ok cfg)) io).1).registry t.path
        = some st) ∧
    (∀ t st, t ∈ cfg.targets → t.enabled = true →
      lookupTarget s.registry t.path = some st →
      st.config.interval_seconds ≠ t.interval_seconds →
      (io t.path = true →
        ∃ h, lookupTarget ((reload_config s (some (.ok cfg)) io).1).registry
            t.path = some ⟨t, false, some h⟩ ∧ s.nextHandle ≤ h) ∧
      (io t.path = false →
        lookupTarget ((reload_config s (some (.ok cfg)) io).1).registry
          t.path = none)) ∧
    (∀ t, t ∈ cfg.targets → t.enabled = true →
      lookupTarget s.registry t.path = none →
      (io t.path = true →
        ∃ h, lookupTarget ((reload_config s (some (.ok cfg)) io).1).registry
            t.path = some ⟨t, false, some h⟩ ∧ s.nextHandle ≤ h) ∧
      (io t.path = false →
        lookupTarget ((reload_config s (some (.ok cfg)) io).1).registry
          t.path = none)) := by
  have hres : ((reload_config s (some (.ok cfg)) io).1).registry
      = ((cfg.targets.foldl (reloadStep io)
          ((s.registry.map (·.1)).foldl (fun acc p =>
            if p ∈ enabledPaths cfg then acc
            else svcRemoveTarget acc p) s))).registry := rfl
  set s1 := (s.registry.map (·.1)).foldl (fun acc p =>
    if p ∈ enabledPaths cfg then acc else svcRemoveTarget acc p) s with hs1def
  have hs1handle : s1.nextHandle = s.nextHandle :=
    phase1_nextHandle _ _ _
  have hkey : ∀ (t : TargetConfig), t ∈ cfg.targets → t.enabled = true →
      ∃ sA : ServiceState,
        lookupTarget ((reload_config s (some (.ok cfg)) io).1).registry
            t.path
          = lookupTarget ((reloadStep io sA t).registry) t.path ∧
        lookupTarget sA.registry t.path = lookupTarget s.registry t.path ∧
        s.nextHandle ≤ sA.nextHandle := by
    intro t htm hen
    obtain ⟨l₁, l₂, hsplit⟩ := List.append_of_mem htm
    obtain ⟨h1, h2⟩ :=
      enabled_path_ne_of_nodup cfg t l₁ l₂ hsplit hen hNodup
    refine ⟨l₁.foldl (reloadStep io) s1, ?_, ?_, ?_⟩
    · rw [hres, hsplit, List.foldl_append, List.foldl_cons]
      exact foldl_reloadStep_frame io l₂ _ t.path h2
    · rw [foldl_reloadStep_frame io l₁ s1 t.path h1]
      exact phase1_lookup_mem _ _ _ _ (mem_enabledPaths cfg t htm hen)
    · rw [← hs1handle]
      exact foldl_reloadStep_nextHandle_mono io l₁ s1
  refine ⟨?_, ?_, ?_, ?_⟩
  · intro k hk
    rw [hres, foldl_reloadStep_frame io cfg.targets s1 k
      (fun t ht hen heq => hk (heq ▸ mem_enabledPaths cfg t ht hen))]
    by_cases hmem : k ∈ s.registry.map (·.1)
    · exact phase1_lookup_removed _ _ _ _ hk hmem
    · exact phase1_lookup_none _ _ _ _
        (lookupTarget_eq_none_of_not_mem _ _ hmem)
  · intro t st htm hen hl hi
    obtain ⟨sA, hAeq, hAl, _⟩ := hkey t htm hen
    rw [hAeq, reloadStep_untouched io sA t st (hAl.trans hl) hi,
      hAl]
    exact hl
  · intro t st htm hen hl hi
    obtain ⟨sA, hAeq, hAl, hAh⟩ := hkey t htm hen
    have hstep := reloadStep_restart io sA t st hen (hAl.trans hl) hi
    constructor
    · intro hio
      refine ⟨sA.nextHandle, ?_, hAh⟩
      rw [hAeq, hstep]
      have := svcAddTarget_lookup_self io (svcRemoveTarget sA t.path) t
      rw [this, if_pos hio]
      rfl
    · intro hio
      rw [hAeq, hstep]
      have := svcAddTarget_lookup_self io (svcRemoveTarget sA t.path) t
      rw [this, if_neg (by rw [hio]; exact Bool.false_ne_true)]
      exact lookupTarget_removeTarget_self _ _
  · intro t htm hen hl
    obtain ⟨sA, hAeq, hAl, hAh⟩ := hkey t htm hen
    have hstep := reloadStep_absent io sA t hen (hAl.trans hl)
    constructor
    · intro hio
      refine ⟨sA.nextHandle, ?_, hAh⟩
      rw [hAeq, hstep, svcAddTarget_lookup_self io sA t, if_pos hio]
    · intro hio
      rw [hAeq, hstep, svcAddTarget_lookup_self io sA t,
        if_neg (by rw [hio]; exact Bool.false_ne_true)]
      exact hAl.trans hl

/-- Counterexample to C6 as stated: when a registered target's interval
changes but its re-initialization fails, `reload_config` removes the
target and does not re-add it — no new task handle, no fresh state;
the claim's unconditional "cancels and re-adds" does not hold. -/
theorem reload_config_reconciliation_counterexample :
    lookupTarget ((reload_config
        ⟨⟨⟨[], [], []⟩, [⟨"A".data, 60, [], true⟩]⟩,
          [("A".data, ⟨⟨"A".data, 60, [], true⟩, false, some 0⟩)], 1⟩
        (some (.ok ⟨⟨[], [], []⟩, [⟨"A".data, 120, [], true⟩]⟩))
        (fun _ => false)).1).registry "A".data = none := by
  decide

/-- Witness for the amended C6, at the spec's own reconciliation example:
registry `A@60s` (handle 0), `B@60s` (handle 1), `D@60s` (handle 2), new
configuration `A@60s, B@120s, C@60s`, all initializations succeeding.
`A` is untouched, `B` restarts with a fresh handle, `C` is freshly added,
`D` is removed. -/
theorem reload_config_reconciliation_witness :
    (lookupTarget ((reload_config
        ⟨⟨⟨[], [], []⟩, []⟩,
          [("A".data, ⟨⟨"A".data, 60, [], true⟩, false, some 0⟩),
            ("B".data, ⟨⟨"B".data, 60, [], true⟩, false, some 1⟩),
            ("D".data, ⟨⟨"D".data, 60, [], true⟩, false, some 2⟩)], 3⟩
        (some (.ok ⟨⟨[], [], []⟩,
          [⟨"A".data, 60, [], true⟩, ⟨"B".data, 120, [], true⟩,
            ⟨"C".data, 60, [], true⟩]⟩))
        (fun _ => true)).1).registry "A".data
      = some ⟨⟨"A".data, 60, [], true⟩, false, some 0⟩) ∧
    (∃ h, lookupTarget ((reload_config
        ⟨⟨⟨[], [], []⟩, []⟩,
          [("A".data, ⟨⟨"A".data, 60, [], true⟩, false, some 0⟩),
            ("B".data, ⟨⟨"B".data, 60, [], true⟩, false, some 1⟩),
            ("D".data, ⟨⟨"D".data, 60, [], true⟩, false, some 2⟩)], 3⟩
        (some (.ok ⟨⟨[], [], []⟩,
          [⟨"A".data, 60, [], true⟩, ⟨"B".data, 120, [], true⟩,
            ⟨"C".data, 60, [], true⟩]⟩))
        (fun _ => true)).1).registry "B".data
      = some ⟨⟨"B".data, 120, [], true⟩, false, some h⟩ ∧ 3 ≤ h) ∧
    (∃ h, lookupTarget ((reload_config
        ⟨⟨⟨[], [], []⟩, []⟩,
          [("A".data, ⟨⟨"A".data, 60, [], true⟩, false, some 0⟩),
            ("B".data, ⟨⟨"B".data, 60, [], true⟩, false, some 1⟩),
            ("D".data, ⟨⟨"D".data, 60, [], true⟩, false, some 2⟩)], 3⟩
        (some (.ok ⟨⟨[], [], []⟩,
          [⟨"A".data, 60, [], true⟩, ⟨"B".data, 120, [], true⟩,
            ⟨"C".data, 60, [], true⟩]⟩))
        (fun _ => true)).1).registry "C".data
      = some ⟨⟨"C".data, 60, [], true⟩, false, some h⟩ ∧ 3 ≤ h) ∧
    lookupTarget ((reload_config
        ⟨⟨⟨[], [], []⟩, []⟩,
          [("A".data, ⟨⟨"A".data, 60, [], true⟩, false, some 0⟩),
            ("B".data, ⟨⟨"B".data, 60, [], true⟩, false, some 1⟩),
            ("D".data, ⟨⟨"D".data, 60, [], true⟩, false, some 2⟩)], 3⟩
        (some (.ok ⟨⟨[], [], []⟩,
          [⟨"A".data, 60, [], true⟩, ⟨"B".data, 120, [], true⟩,
            ⟨"C".data, 60, [], true⟩]⟩))
        (fun _ => true)).1).registry "D".data = none :=
  ⟨(reload_config_reconciliation _ _ _ (by decide)).2.1
      ⟨"A".data, 60, [], true⟩ ⟨⟨"A".data, 60, [], true⟩, false, some 0⟩
      (by decide) (by decide) (by decide) (by decide),
    ((reload_config_reconciliation _ _ _ (by decide)).2.2.1
      ⟨"B".data, 120, [], true⟩ ⟨⟨"B".data, 60, [], true⟩, false, some 1⟩
      (by decide) (by decide) (by decide) (by decide)).1 (by decide),
    ((reload_config_reconciliation _ _ _ (by decide)).2.2.2
      ⟨"C".data, 60, [], true⟩
      (by decide) (by decide) (by decide)).1 (by decide),
    (reload_config_reconciliation _ _ _ (by decide)).1
      "D".data (by decide)⟩

end Gsd
